import Mathlib

/-!
Verification development for `src/convert_list_to_json.py`.

The script defines one function,

    def convert_list_to_json(lst, filename='countries.json'):
        """Saves a list of strings as a JSON file."""
        with open(filename, 'wb') as f:
            f.write(json.dumps(lst, ensure_ascii=False).encode('utf8'))

a hardcoded list `countries` bound inside an `if __name__ == '__main__':`
block, and a final module-level call
`convert_list_to_json(countries, 'exercises/countries.json')` that sits
OUTSIDE the guard.

We embed the function shallowly: the filesystem is a map from paths to
optional byte lists, `json.dumps(lst, ensure_ascii=False)` for a list of
Python `str` values is modelled character by character after CPython's
`json/encoder.py` (`ESCAPE_DCT`, default separator `', '`), `.encode('utf8')`
is a standard UTF-8 encoder, and `open(filename, 'wb')` truncates/creates
the destination when the destination's directory exists and raises a
filesystem error otherwise.  Reference models of UTF-8 decoding and of JSON
parsing (restricted to arrays of strings, the only documents the script
produces) let us state and prove the round-trip law.
-/

/-- A filesystem restricted to what the script observes: for each path,
either `none` (no file) or the byte contents of the file.  Bytes are `Nat`
values below 256. -/
abbrev FS := String → Option (List Nat)

/-- The directory component of a path: everything before the last `/`,
or the empty string (the current working directory) when the path has no
separator.  Models how `open` resolves `filename` relative to directories. -/
def dirname (p : String) : String :=
  match (p.data.reverse).dropWhile (fun c => ¬ c = '/') with
  | [] => ""
  | _ :: t => String.mk t.reverse

/-- Models a successful `open(p, 'wb')` followed by a full write: the file
at `p` is created or truncated and ends up holding exactly `bs`; every
other path is untouched. -/
def writeFile (fs : FS) (p : String) (bs : List Nat) : FS :=
  fun q => if q = p then some bs else fs q

/-- One hexadecimal digit, lowercase, as produced by CPython's
`'\\u%04x'` formatting in `json/encoder.py`. -/
def hexDigitChar (n : Nat) : Char :=
  if n < 10 then Char.ofNat (48 + n) else Char.ofNat (87 + n)

/-- Four lowercase hexadecimal digits of `n`, as in `'\\u%04x' % n`. -/
def hex4 (n : Nat) : List Char :=
  [hexDigitChar (n / 4096 % 16), hexDigitChar (n / 256 % 16),
   hexDigitChar (n / 16 % 16), hexDigitChar (n % 16)]

/-- How `json.dumps(..., ensure_ascii=False)` serialises one character of a
string: CPython's `ESCAPE` regex replaces only `\\`, `"` and the control
characters below U+0020 (via `ESCAPE_DCT`); every other character — in
particular every non-ASCII character — is emitted literally. -/
def escapeChar (c : Char) : List Char :=
  if c = '\\' then ['\\', '\\']
  else if c = '"' then ['\\', '"']
  else if c = Char.ofNat 8 then ['\\', 'b']
  else if c = Char.ofNat 12 then ['\\', 'f']
  else if c = '\n' then ['\\', 'n']
  else if c = Char.ofNat 13 then ['\\', 'r']
  else if c = '\t' then ['\\', 't']
  else if c.toNat < 0x20 then '\\' :: 'u' :: hex4 c.toNat
  else [c]

/-- `json.dumps` on one string value: the escaped characters between two
quotation marks. -/
def encodeString (s : String) : List Char :=
  '"' :: s.data.flatMap escapeChar ++ ['"']

/-- `', '.join`: the default item separator of `json.dumps` placed between
consecutive serialised elements. -/
def joinSep : List (List Char) → List Char
  | [] => []
  | [x] => x
  | x :: y :: t => x ++ ',' :: ' ' :: joinSep (y :: t)

/-- `json.dumps(lst, ensure_ascii=False)` for a list of strings: the
serialised elements separated by `', '` inside square brackets, no
surrounding whitespace, no trailing newline. -/
def json_dumps (lst : List String) : String :=
  String.mk ('[' :: joinSep (lst.map encodeString) ++ [']'])

/-- Standard UTF-8 encoding of one Unicode code point `n` (as in
`str.encode('utf8')`). -/
def utf8EncodeChar (n : Nat) : List Nat :=
  if n < 0x80 then [n]
  else if n < 0x800 then [0xC0 + n / 64, 0x80 + n % 64]
  else if n < 0x10000 then
    [0xE0 + n / 4096, 0x80 + n / 64 % 64, 0x80 + n % 64]
  else
    [0xF0 + n / 262144, 0x80 + n / 4096 % 64, 0x80 + n / 64 % 64,
     0x80 + n % 64]

/-- `s.encode('utf8')`: the concatenated UTF-8 encodings of the characters
of `s`. -/
def utf8Encode (s : String) : List Nat :=
  s.data.flatMap (fun c => utf8EncodeChar c.toNat)

/-- The embedding of `convert_list_to_json(lst, filename)`.  When the
directory component of `filename` exists, `open(filename, 'wb')` succeeds,
the file is created or truncated, and the UTF-8 bytes of the JSON text are
written; otherwise `open` raises a filesystem error (`Except.error`) and
the filesystem is untouched.  The Python function returns `None`, so a
successful run yields only the updated filesystem. -/
def convert_list_to_json (dirs : String → Bool) (fs : FS) (lst : List String)
    (filename : String) : Except Unit FS :=
  if dirs (dirname filename) then
    Except.ok (writeFile fs filename (utf8Encode (json_dumps lst)))
  else
    Except.error ()

/-- The filesystem after a call to `convert_list_to_json`: updated on
success, unchanged when the call raised (the exception propagates and no
file is created). -/
def runConvert (dirs : String → Bool) (fs : FS) (lst : List String)
    (filename : String) : FS :=
  match convert_list_to_json dirs fs lst filename with
  | Except.ok fs2 => fs2
  | Except.error _ => fs

/-- Models the call `convert_list_to_json(lst)` with the second argument
omitted: Python binds `filename` to the default value `'countries.json'`
from the `def` line. -/
def convert_list_to_json_noDest (dirs : String → Bool) (fs : FS)
    (lst : List String) : Except Unit FS :=
  convert_list_to_json dirs fs lst "countries.json"

/-- Reference model of one step of `bytes.decode('utf-8')`: from a leading
byte `b` and the following bytes, the code point it opens and the
unconsumed remainder.  Rejects stray continuation bytes, overlong forms,
surrogate encodings and code points above U+10FFFF, exactly as CPython's
strict UTF-8 decoder does. -/
def utf8DecodeOne (b : Nat) (bs : List Nat) : Option (Nat × List Nat) :=
  if b < 0x80 then some (b, bs)
  else if b < 0xC2 then none
  else if b < 0xE0 then
    match bs with
    | b1 :: bs1 =>
      if 0x80 ≤ b1 ∧ b1 < 0xC0 then
        some ((b - 0xC0) * 64 + (b1 - 0x80), bs1)
      else none
    | [] => none
  else if b < 0xF0 then
    match bs with
    | b1 :: b2 :: bs2 =>
      if (0x80 ≤ b1 ∧ b1 < 0xC0) ∧ (0x80 ≤ b2 ∧ b2 < 0xC0) ∧
          ¬ (b = 0xE0 ∧ b1 < 0xA0) ∧ ¬ (b = 0xED ∧ 0xA0 ≤ b1) then
        some ((b - 0xE0) * 4096 + (b1 - 0x80) * 64 + (b2 - 0x80), bs2)
      else none
    | _ => none
  else if b < 0xF5 then
    match bs with
    | b1 :: b2 :: b3 :: bs3 =>
      if (0x80 ≤ b1 ∧ b1 < 0xC0) ∧ (0x80 ≤ b2 ∧ b2 < 0xC0) ∧
          (0x80 ≤ b3 ∧ b3 < 0xC0) ∧
          ¬ (b = 0xF0 ∧ b1 < 0x90) ∧ ¬ (b = 0xF4 ∧ 0x90 ≤ b1) then
        some ((b - 0xF0) * 262144 + (b1 - 0x80) * 4096 +
          (b2 - 0x80) * 64 + (b3 - 0x80), bs3)
      else none
    | _ => none
  else none

/-- Decoding loop of `bytes.decode('utf-8')`.  `fuel` bounds the number of
decoded characters; since every character consumes at least one byte, the
total byte count (what `utf8Decode` passes) always suffices. -/
def utf8DecodeLoop (fuel : Nat) (bs : List Nat) : Option (List Char) :=
  match bs with
  | [] => some []
  | b :: rest =>
    match utf8DecodeOne b rest, fuel with
    | some (n, rest2), f + 1 =>
      (utf8DecodeLoop f rest2).map (fun cs => Char.ofNat n :: cs)
    | _, _ => none

/-- `bytes.decode('utf-8')` as a whole: the decoded text, or `none` when
the byte sequence is not valid UTF-8. -/
def utf8Decode (bs : List Nat) : Option String :=
  (utf8DecodeLoop bs.length bs).map String.mk

/-- JSON insignificant whitespace (RFC 8259, also what `json.loads`
skips between tokens). -/
def isWs (c : Char) : Bool :=
  c = ' ' ∨ c = '\t' ∨ c = '\n' ∨ c = Char.ofNat 13

/-- Drop leading JSON whitespace. -/
def skipWs : List Char → List Char
  | [] => []
  | c :: cs => if isWs c then skipWs cs else c :: cs

/-- The value of one hexadecimal digit, accepting both cases, as in a JSON
`\\uXXXX` escape. -/
def hexVal (c : Char) : Option Nat :=
  if '0' ≤ c ∧ c ≤ '9' then some (c.toNat - 48)
  else if 'a' ≤ c ∧ c ≤ 'f' then some (c.toNat - 87)
  else if 'A' ≤ c ∧ c ≤ 'F' then some (c.toNat - 55)
  else none

/-- The character denoted by a one-letter JSON escape `\\e`. -/
def unescape (e : Char) : Option Char :=
  if e = '"' then some '"'
  else if e = '\\' then some '\\'
  else if e = '/' then some '/'
  else if e = 'b' then some (Char.ofNat 8)
  else if e = 'f' then some (Char.ofNat 12)
  else if e = 'n' then some '\n'
  else if e = 'r' then some (Char.ofNat 13)
  else if e = 't' then some '\t'
  else none

/-- Reference model of reading one JSON escape, entered after the
backslash: the character it denotes and the unconsumed remainder. -/
def parseEsc (rest : List Char) : Option (Char × List Char) :=
  match rest with
  | [] => none
  | e :: rest1 =>
    if e = 'u' then
      match rest1 with
      | d1 :: d2 :: d3 :: d4 :: rest2 =>
        match hexVal d1, hexVal d2, hexVal d3, hexVal d4 with
        | some a, some b, some c2, some d =>
          some (Char.ofNat (4096 * a + 256 * b + 16 * c2 + d), rest2)
        | _, _, _, _ => none
      | _ => none
    else
      match unescape e with
      | some u => some (u, rest1)
      | none => none

/-- Loop of JSON string parsing, entered after the opening quotation mark:
consumes characters and escapes up to the closing quotation mark and
returns the decoded characters together with the unconsumed remainder.
Raw control characters are rejected, as in strict JSON.  `fuel` bounds the
number of decoded characters; each one consumes at least one input
character, so the input length always suffices. -/
def parseStringLoop (fuel : Nat) (input : List Char) :
    Option (List Char × List Char) :=
  match input with
  | [] => none
  | c :: rest =>
    if c = '"' then some ([], rest)
    else if c = '\\' then
      match parseEsc rest, fuel with
      | some (u, rest1), f + 1 =>
        (parseStringLoop f rest1).map (fun p => (u :: p.1, p.2))
      | _, _ => none
    else if c.toNat < 0x20 then none
    else
      match fuel with
      | 0 => none
      | f + 1 => (parseStringLoop f rest).map (fun p => (c :: p.1, p.2))

/-- Reference model of JSON string parsing, entered after the opening
quotation mark. -/
def parseStringBody (input : List Char) : Option (List Char × List Char) :=
  parseStringLoop input.length input

/-- Reference model of parsing the rest of a JSON array of strings, after
one element has already been read: repeatedly a comma and a string, until
the closing bracket.  `fuel` bounds the number of remaining elements; the
top-level parser passes the document length, which always suffices. -/
def parseArrayRest (fuel : Nat) (input : List Char) :
    Option (List (List Char) × List Char) :=
  match skipWs input with
  | [] => none
  | c :: rest =>
    if c = ']' then some ([], rest)
    else if c = ',' then
      match skipWs rest with
      | [] => none
      | c2 :: rest1 =>
        if c2 = '"' then
          match parseStringBody rest1 with
          | some (s, rest2) =>
            match fuel with
            | 0 => none
            | fuel2 + 1 =>
              (parseArrayRest fuel2 rest2).map (fun p => (s :: p.1, p.2))
          | none => none
        else none
    else none

/-- Reference model of `json.loads` restricted to the documents the script
produces: a single JSON array of strings, with arbitrary insignificant
whitespace, and nothing but whitespace after it. -/
def json_loads (doc : String) : Option (List String) :=
  match skipWs doc.data with
  | [] => none
  | c :: rest =>
    if c = '[' then
      match skipWs rest with
      | [] => none
      | c2 :: rest2 =>
        if c2 = ']' then
          if (skipWs rest2).isEmpty then some [] else none
        else if c2 = '"' then
          match parseStringBody rest2 with
          | some (s, rest3) =>
            match parseArrayRest doc.data.length rest3 with
            | some (ss, rest4) =>
              if (skipWs rest4).isEmpty then
                some ((s :: ss).map String.mk)
              else none
            | none => none
          | none => none
        else none
    else none

/-- The hardcoded `countries` list, bound inside the
`if __name__ == '__main__':` block of the script. -/
def countries : List String :=
  ["Afghanistan", "Åland Islands", "Albania", "Algeria",
   "American Samoa", "Andorra", "Angola", "Anguilla",
   "Antarctica", "Antigua and Barbuda", "Argentina", "Armenia",
   "Aruba", "Australia", "Austria", "Azerbaijan", "Bahamas",
   "Bahrain", "Bangladesh", "Barbados", "Belarus", "Belgium",
   "Belize", "Benin", "Bermuda", "Bhutan",
   "Bolivia (Plurinational State of)",
   "Bonaire, Sint Eustatius and Saba",
   "Bosnia and Herzegovina", "Botswana",
   "Bouvet Island", "Brazil", "British Indian Ocean Territory",
   "United States Minor Outlying Islands",
   "Virgin Islands (British)", "Virgin Islands (U.S.)",
   "Brunei Darussalam", "Bulgaria", "Burkina Faso", "Burundi",
   "Cambodia", "Cameroon", "Canada", "Cabo Verde",
   "Cayman Islands", "Central African Republic", "Chad",
   "Chile", "China", "Christmas Island",
   "Cocos (Keeling) Islands", "Colombia", "Comoros", "Congo",
   "Congo (Democratic Republic of the)", "Cook Islands",
   "Costa Rica", "Croatia", "Cuba", "Curaçao", "Cyprus",
   "Czech Republic", "Denmark", "Djibouti", "Dominica",
   "Dominican Republic", "Ecuador", "Egypt", "El Salvador",
   "Equatorial Guinea", "Eritrea", "Estonia", "Ethiopia",
   "Falkland Islands (Malvinas)", "Faroe Islands", "Fiji",
   "Finland", "France", "French Guiana", "French Polynesia",
   "French Southern Territories", "Gabon", "Gambia", "Georgia",
   "Germany", "Ghana", "Gibraltar", "Greece", "Greenland",
   "Grenada", "Guadeloupe", "Guam", "Guatemala", "Guernsey",
   "Guinea", "Guinea-Bissau", "Guyana", "Haiti",
   "Heard Island and McDonald Islands", "Holy See", "Honduras",
   "Hong Kong", "Hungary", "Iceland", "India", "Indonesia",
   "Côte d\x27Ivoire", "Iran (Islamic Republic of)", "Iraq",
   "Ireland", "Isle of Man", "Israel", "Italy", "Jamaica",
   "Japan", "Jersey", "Jordan", "Kazakhstan", "Kenya",
   "Kiribati", "Kuwait", "Kyrgyzstan",
   "Lao People\x27s Democratic Republic", "Latvia", "Lebanon",
   "Lesotho", "Liberia", "Libya", "Liechtenstein", "Lithuania",
   "Luxembourg", "Macao",
   "Macedonia (the former Yugoslav Republic of)", "Madagascar",
   "Malawi", "Malaysia", "Maldives", "Mali", "Malta",
   "Marshall Islands", "Martinique", "Mauritania", "Mauritius",
   "Mayotte", "Mexico", "Micronesia (Federated States of)",
   "Moldova (Republic of)", "Monaco", "Mongolia", "Montenegro",
   "Montserrat", "Morocco", "Mozambique", "Myanmar", "Namibia",
   "Nauru", "Nepal", "Netherlands", "New Caledonia",
   "New Zealand", "Nicaragua", "Niger", "Nigeria", "Niue",
   "Norfolk Island", "Korea (Democratic People\x27s Republic of)",
   "Northern Mariana Islands", "Norway", "Oman", "Pakistan",
   "Palau", "Palestine, State of", "Panama", "Papua New Guinea",
   "Paraguay", "Peru", "Philippines", "Pitcairn", "Poland",
   "Portugal", "Puerto Rico", "Qatar", "Republic of Kosovo",
   "Réunion", "Romania", "Russian Federation", "Rwanda",
   "Saint Barthélemy",
   "Saint Helena, Ascension and Tristan da Cunha",
   "Saint Kitts and Nevis", "Saint Lucia",
   "Saint Martin (French part)", "Saint Pierre and Miquelon",
   "Saint Vincent and the Grenadines", "Samoa", "San Marino",
   "Sao Tome and Principe", "Saudi Arabia", "Senegal", "Serbia",
   "Seychelles", "Sierra Leone", "Singapore",
   "Sint Maarten (Dutch part)", "Slovakia", "Slovenia",
   "Solomon Islands", "Somalia", "South Africa",
   "South Georgia and the South Sandwich Islands",
   "Korea (Republic of)", "South Sudan", "Spain", "Sri Lanka",
   "Sudan", "Suriname", "Svalbard and Jan Mayen", "Swaziland",
   "Sweden", "Switzerland", "Syrian Arab Republic", "Taiwan",
   "Tajikistan", "Tanzania, United Republic of", "Thailand",
   "Timor-Leste", "Togo", "Tokelau", "Tonga",
   "Trinidad and Tobago", "Tunisia", "Turkey", "Turkmenistan",
   "Turks and Caicos Islands", "Tuvalu", "Uganda", "Ukraine",
   "United Arab Emirates",
   "United Kingdom of Great Britain and Northern Ireland",
   "United States of America", "Uruguay", "Uzbekistan",
   "Vanuatu", "Venezuela (Bolivarian Republic of)", "Viet Nam",
   "Wallis and Futuna", "Western Sahara", "Yemen", "Zambia",
   "Zimbabwe"]

/-- Outcome of executing the module top level: normal completion with the
resulting filesystem, a `NameError` (filesystem untouched), or a
filesystem error raised by `open` (filesystem untouched). -/
inductive PyExec where
  | ok (fs : FS)
  | nameError (fs : FS)
  | fsError (fs : FS)
deriving Inhabited

/-- Executing the module top level.  The `def` statement always runs; the
`if __name__ == '__main__':` block binds the name `countries` only when
the module is run directly (`asMain = true`); the final line
`convert_list_to_json(countries, 'exercises/countries.json')` is NOT
inside the guard, so it always executes: it first evaluates the name
`countries`, raising `NameError` when the name is unbound (import case),
and otherwise performs the conversion. -/
def runModule (asMain : Bool) (dirs : String → Bool) (fs : FS) : PyExec :=
  match (if asMain then some countries else none) with
  | none => PyExec.nameError fs
  | some cs =>
    match convert_list_to_json dirs fs cs "exercises/countries.json" with
    | Except.ok fs2 => PyExec.ok fs2
    | Except.error _ => PyExec.fsError fs
/-- The serialisation of every element after the first: for each, the
separator `', '` followed by the serialised string.  `joinSep` on a
nonempty list is the first serialised element followed by this. -/
def encodeTail (S : List String) : List Char :=
  S.flatMap (fun s => ',' :: ' ' :: encodeString s)

/-! ## Helper lemmas: UTF-8 round trip -/

theorem char_valid_nat (c : Char) :
    c.toNat < 0xd800 ∨ 0xe000 ≤ c.toNat ∧ c.toNat < 0x110000 := c.valid

theorem one_le_length_utf8EncodeChar (n : Nat) :
    1 ≤ (utf8EncodeChar n).length := by
  unfold utf8EncodeChar
  split_ifs <;> simp

theorem length_le_flatMap {β γ : Type} (f : β → List γ) (l : List β)
    (h : ∀ c, 1 ≤ (f c).length) : l.length ≤ (l.flatMap f).length := by
  induction l with
  | nil => simp
  | cons c l ih =>
    rw [List.flatMap_cons, List.length_append, List.length_cons]
    have := h c
    omega

theorem utf8DecodeLoop_step (b : Nat) (rest : List Nat) (n : Nat)
    (rest2 : List Nat) (f : Nat) (h : utf8DecodeOne b rest = some (n, rest2)) :
    utf8DecodeLoop (f + 1) (b :: rest)
      = (utf8DecodeLoop f rest2).map (fun cs => Char.ofNat n :: cs) := by
  conv_lhs => rw [utf8DecodeLoop.eq_def]
  dsimp only
  rw [h]

theorem utf8DecodeOne_encodeChar (c : Char) (rest : List Nat) :
    ∃ b more, utf8EncodeChar c.toNat = b :: more ∧
      utf8DecodeOne b (more ++ rest) = some (c.toNat, rest) := by
  have hv := char_valid_nat c
  set n := c.toNat with hn
  by_cases h1 : n < 0x80
  · refine ⟨n, [], by simp [utf8EncodeChar, if_pos h1], ?_⟩
    simp [utf8DecodeOne, if_pos h1]
  · by_cases h2 : n < 0x800
    · refine ⟨0xC0 + n / 64, [0x80 + n % 64],
        by simp [utf8EncodeChar, if_neg h1, if_pos h2], ?_⟩
      have e1 : ¬ (0xC0 + n / 64 < 0x80) := by omega
      have e2 : ¬ (0xC0 + n / 64 < 0xC2) := by omega
      have e3 : 0xC0 + n / 64 < 0xE0 := by omega
      have e4 : 0x80 ≤ 0x80 + n % 64 ∧ 0x80 + n % 64 < 0xC0 := by omega
      simp only [utf8DecodeOne, if_neg e1, if_neg e2, if_pos e3,
        List.cons_append, List.nil_append, if_pos e4]
      have ev : (0xC0 + n / 64 - 0xC0) * 64 + (0x80 + n % 64 - 0x80) = n := by
        omega
      rw [ev]
    · by_cases h3 : n < 0x10000
      · refine ⟨0xE0 + n / 4096, [0x80 + n / 64 % 64, 0x80 + n % 64],
          by simp [utf8EncodeChar, if_neg h1, if_neg h2, if_pos h3], ?_⟩
        have e1 : ¬ (0xE0 + n / 4096 < 0x80) := by omega
        have e2 : ¬ (0xE0 + n / 4096 < 0xC2) := by omega
        have e3 : ¬ (0xE0 + n / 4096 < 0xE0) := by omega
        have e4 : 0xE0 + n / 4096 < 0xF0 := by omega
        have e5 : (0x80 ≤ 0x80 + n / 64 % 64 ∧ 0x80 + n / 64 % 64 < 0xC0) ∧
            (0x80 ≤ 0x80 + n % 64 ∧ 0x80 + n % 64 < 0xC0) ∧
            ¬ (0xE0 + n / 4096 = 0xE0 ∧ 0x80 + n / 64 % 64 < 0xA0) ∧
            ¬ (0xE0 + n / 4096 = 0xED ∧ 0xA0 ≤ 0x80 + n / 64 % 64) := by
          omega
        simp only [utf8DecodeOne, if_neg e1, if_neg e2, if_neg e3, if_pos e4,
          List.cons_append, List.nil_append, if_pos e5]
        have ev : (0xE0 + n / 4096 - 0xE0) * 4096 +
            (0x80 + n / 64 % 64 - 0x80) * 64 + (0x80 + n % 64 - 0x80) = n := by
          omega
        rw [ev]
      · have h4 : n < 0x110000 := by omega
        refine ⟨0xF0 + n / 262144,
          [0x80 + n / 4096 % 64, 0x80 + n / 64 % 64, 0x80 + n % 64],
          by simp [utf8EncodeChar, if_neg h1, if_neg h2, if_neg h3], ?_⟩
        have e1 : ¬ (0xF0 + n / 262144 < 0x80) := by omega
        have e2 : ¬ (0xF0 + n / 262144 < 0xC2) := by omega
        have e3 : ¬ (0xF0 + n / 262144 < 0xE0) := by omega
        have e4 : ¬ (0xF0 + n / 262144 < 0xF0) := by omega
        have e5 : 0xF0 + n / 262144 < 0xF5 := by omega
        have e6 : (0x80 ≤ 0x80 + n / 4096 % 64 ∧ 0x80 + n / 4096 % 64 < 0xC0) ∧
            (0x80 ≤ 0x80 + n / 64 % 64 ∧ 0x80 + n / 64 % 64 < 0xC0) ∧
            (0x80 ≤ 0x80 + n % 64 ∧ 0x80 + n % 64 < 0xC0) ∧
            ¬ (0xF0 + n / 262144 = 0xF0 ∧ 0x80 + n / 4096 % 64 < 0x90) ∧
            ¬ (0xF0 + n / 262144 = 0xF4 ∧ 0x90 ≤ 0x80 + n / 4096 % 64) := by
          omega
        simp only [utf8DecodeOne, if_neg e1, if_neg e2, if_neg e3, if_neg e4,
          if_pos e5, List.cons_append, List.nil_append, if_pos e6]
        have ev : (0xF0 + n / 262144 - 0xF0) * 262144 +
            (0x80 + n / 4096 % 64 - 0x80) * 4096 +
            (0x80 + n / 64 % 64 - 0x80) * 64 + (0x80 + n % 64 - 0x80) = n := by
          omega
        rw [ev]

theorem utf8DecodeLoop_flat (cs : List Char) (fuel : Nat)
    (h : cs.length ≤ fuel) :
    utf8DecodeLoop fuel (cs.flatMap (fun c => utf8EncodeChar c.toNat))
      = some cs := by
  induction cs generalizing fuel with
  | nil => rw [List.flatMap_nil]; rw [utf8DecodeLoop.eq_def]
  | cons c cs ih =>
    obtain ⟨b, more, henc, hone⟩ :=
      utf8DecodeOne_encodeChar c (cs.flatMap (fun c => utf8EncodeChar c.toNat))
    obtain ⟨f, rfl⟩ : ∃ f, fuel = f + 1 :=
      ⟨fuel - 1, by simp at h; omega⟩
    rw [List.flatMap_cons, henc, List.cons_append,
      utf8DecodeLoop_step b _ c.toNat _ f hone,
      ih f (by simp at h; omega)]
    rw [Char.ofNat_toNat]
    rfl

theorem utf8Decode_utf8Encode (s : String) :
    utf8Decode (utf8Encode s) = some s := by
  unfold utf8Decode utf8Encode
  rw [utf8DecodeLoop_flat s.data _
    (length_le_flatMap _ s.data (fun c => one_le_length_utf8EncodeChar c.toNat))]
  rfl
/-! ## Helper lemmas: JSON string round trip -/

theorem hexVal_hexDigitChar : ∀ m : Nat, m < 16 → hexVal (hexDigitChar m) = some m := by
  decide

theorem one_le_length_escapeChar (c : Char) : 1 ≤ (escapeChar c).length := by
  unfold escapeChar
  split_ifs <;> simp [hex4]

theorem parseEsc_unescape (e u : Char) (t : List Char) (he : ¬ e = 'u')
    (hu : unescape e = some u) : parseEsc (e :: t) = some (u, t) := by
  unfold parseEsc
  dsimp only
  rw [if_neg he, hu]

theorem parseEsc_u (d1 d2 d3 d4 : Char) (a1 a2 a3 a4 : Nat) (t : List Char)
    (x1 : hexVal d1 = some a1) (x2 : hexVal d2 = some a2)
    (x3 : hexVal d3 = some a3) (x4 : hexVal d4 = some a4) :
    parseEsc ('u' :: d1 :: d2 :: d3 :: d4 :: t)
      = some (Char.ofNat (4096 * a1 + 256 * a2 + 16 * a3 + a4), t) := by
  unfold parseEsc
  dsimp only
  rw [if_pos rfl, x1, x2, x3, x4]

theorem parseStringLoop_quote (f : Nat) (t : List Char) :
    parseStringLoop f ('"' :: t) = some ([], t) := by
  conv_lhs => rw [parseStringLoop.eq_def]
  dsimp only
  rw [if_pos rfl]

theorem parseStringLoop_esc (f : Nat) (t : List Char) (u : Char)
    (rest1 : List Char) (h : parseEsc t = some (u, rest1)) :
    parseStringLoop (f + 1) ('\\' :: t)
      = (parseStringLoop f rest1).map (fun p => (u :: p.1, p.2)) := by
  conv_lhs => rw [parseStringLoop.eq_def]
  dsimp only
  rw [if_neg (by decide : ¬ ('\\' : Char) = '"'), if_pos rfl, h]

theorem parseStringLoop_lit (f : Nat) (c : Char) (t : List Char)
    (h1 : ¬ c = '"') (h2 : ¬ c = '\\') (h3 : ¬ c.toNat < 0x20) :
    parseStringLoop (f + 1) (c :: t)
      = (parseStringLoop f t).map (fun p => (c :: p.1, p.2)) := by
  conv_lhs => rw [parseStringLoop.eq_def]
  dsimp only
  rw [if_neg h1, if_neg h2, if_neg h3]

theorem parseStringLoop_short (c e : Char) (s rest : List Char) (f : Nat)
    (hec : escapeChar c = ['\\', e]) (he : ¬ e = 'u')
    (hu : unescape e = some c)
    (hrec : parseStringLoop f (s.flatMap escapeChar ++ '"' :: rest)
      = some (s, rest)) :
    parseStringLoop (f + 1)
        (escapeChar c ++ (s.flatMap escapeChar ++ '"' :: rest))
      = some (c :: s, rest) := by
  rw [hec, List.cons_append, List.cons_append, List.nil_append,
    parseStringLoop_esc f _ c _ (parseEsc_unescape e c _ he hu), hrec]
  rfl

theorem parseStringLoop_escape (s : List Char) (rest : List Char)
    (fuel : Nat) (h : s.length ≤ fuel) :
    parseStringLoop fuel (s.flatMap escapeChar ++ '"' :: rest)
      = some (s, rest) := by
  induction s generalizing fuel rest with
  | nil =>
    rw [List.flatMap_nil, List.nil_append, parseStringLoop_quote]
  | cons c s ih =>
    obtain ⟨f, rfl⟩ : ∃ f, fuel = f + 1 := ⟨fuel - 1, by simp at h; omega⟩
    have hrec := ih rest f (by simp at h; omega)
    rw [List.flatMap_cons, List.append_assoc]
    by_cases hb : c = '\\'
    · subst hb
      exact parseStringLoop_short _ '\\' s rest f rfl (by decide) rfl hrec
    by_cases hq : c = '"'
    · subst hq
      exact parseStringLoop_short _ '"' s rest f rfl (by decide) rfl hrec
    by_cases h8 : c = Char.ofNat 8
    · subst h8
      exact parseStringLoop_short _ 'b' s rest f rfl (by decide) rfl hrec
    by_cases h12 : c = Char.ofNat 12
    · subst h12
      exact parseStringLoop_short _ 'f' s rest f rfl (by decide) rfl hrec
    by_cases h10 : c = '\n'
    · subst h10
      exact parseStringLoop_short _ 'n' s rest f rfl (by decide) rfl hrec
    by_cases h13 : c = Char.ofNat 13
    · subst h13
      exact parseStringLoop_short _ 'r' s rest f rfl (by decide) rfl hrec
    by_cases h9 : c = '\t'
    · subst h9
      exact parseStringLoop_short _ 't' s rest f rfl (by decide) rfl hrec
    by_cases hctl : c.toNat < 0x20
    · -- `\uXXXX` escape for the remaining control characters
      have hec : escapeChar c = '\\' :: 'u' :: hex4 c.toNat := by
        simp only [escapeChar, if_neg hb, if_neg hq, if_neg h8, if_neg h12,
          if_neg h10, if_neg h13, if_neg h9, if_pos hctl]
      set n := c.toNat with hn
      have x1 := hexVal_hexDigitChar (n / 4096 % 16) (by omega)
      have x2 := hexVal_hexDigitChar (n / 256 % 16) (by omega)
      have x3 := hexVal_hexDigitChar (n / 16 % 16) (by omega)
      have x4 := hexVal_hexDigitChar (n % 16) (by omega)
      have hpe : parseEsc ('u' :: hex4 n ++ (s.flatMap escapeChar ++ '"' :: rest))
          = some (c, s.flatMap escapeChar ++ '"' :: rest) := by
        have hv : 4096 * (n / 4096 % 16) + 256 * (n / 256 % 16) +
            16 * (n / 16 % 16) + n % 16 = n := by
          have : n < 0x20 := hctl
          omega
        rw [hex4, List.cons_append, List.cons_append, List.cons_append,
          List.cons_append, List.singleton_append,
          parseEsc_u _ _ _ _ _ _ _ _ _ x1 x2 x3 x4, hv, hn,
          Char.ofNat_toNat]
      rw [hec, List.cons_append, List.cons_append,
        parseStringLoop_esc f _ c _ (by rw [← List.cons_append]; exact hpe),
        hrec]
      rfl
    · have hec : escapeChar c = [c] := by
        simp only [escapeChar, if_neg hb, if_neg hq, if_neg h8, if_neg h12,
          if_neg h10, if_neg h13, if_neg h9, if_neg hctl]
      rw [hec, List.singleton_append,
        parseStringLoop_lit f c _ hq hb hctl, hrec]
      rfl

theorem parseStringBody_escape (s : List Char) (rest : List Char) :
    parseStringBody (s.flatMap escapeChar ++ '"' :: rest) = some (s, rest) := by
  unfold parseStringBody
  apply parseStringLoop_escape
  have h1 : s.length ≤ (s.flatMap escapeChar).length :=
    length_le_flatMap _ s one_le_length_escapeChar
  rw [List.length_append, List.length_cons]
  omega
/-! ## Helper lemmas: JSON array round trip -/

theorem joinSep_map_cons (s : String) (S : List String) :
    joinSep ((s :: S).map encodeString) = encodeString s ++ encodeTail S := by
  induction S generalizing s with
  | nil => simp [joinSep, encodeTail]
  | cons s2 S ih =>
    rw [List.map_cons, List.map_cons, joinSep, ← List.map_cons, ih s2]
    simp [encodeTail, List.append_assoc]

theorem skipWs_not (c : Char) (l : List Char) (h : isWs c = false) :
    skipWs (c :: l) = c :: l := by
  rw [skipWs, h]
  rfl

theorem skipWs_space (l : List Char) : skipWs (' ' :: l) = skipWs l := by
  rw [skipWs, show isWs ' ' = true from rfl]
  rfl

theorem length_le_encodeTail (S : List String) :
    S.length ≤ (encodeTail S).length := by
  induction S with
  | nil => simp [encodeTail]
  | cons s S ih =>
    rw [encodeTail, List.flatMap_cons, ← encodeTail]
    simp only [List.length_append, List.length_cons]
    omega

theorem parseArrayRest_tail (S : List String) (fuel : Nat)
    (h : S.length ≤ fuel) (rest : List Char) :
    parseArrayRest fuel (encodeTail S ++ ']' :: rest)
      = some (S.map String.data, rest) := by
  induction S generalizing fuel rest with
  | nil =>
    rw [encodeTail, List.flatMap_nil, List.nil_append]
    conv_lhs => rw [parseArrayRest.eq_def]
    rw [skipWs_not ']' rest rfl]
    dsimp only
    rw [if_pos rfl]
    rfl
  | cons s S ih =>
    obtain ⟨f, rfl⟩ : ∃ f, fuel = f + 1 := ⟨fuel - 1, by simp at h; omega⟩
    rw [encodeTail, List.flatMap_cons, ← encodeTail]
    rw [List.cons_append, List.cons_append, List.append_assoc,
      List.cons_append]
    conv_lhs => rw [parseArrayRest.eq_def]
    rw [skipWs_not ',' _ rfl]
    dsimp only
    rw [if_neg (by decide : ¬ (',' : Char) = ']'), if_pos rfl, skipWs_space]
    rw [encodeString, List.append_assoc, List.cons_append,
      List.singleton_append]
    rw [skipWs_not '"' _ rfl]
    dsimp only
    rw [if_pos rfl, parseStringBody_escape s.data _]
    dsimp only
    rw [ih f (by simp at h; omega)]
    rfl

theorem map_mk_map_data (L : List String) :
    (L.map String.data).map String.mk = L := by
  rw [List.map_map]
  have he : String.mk ∘ String.data = id := funext fun s => rfl
  rw [he, List.map_id]

theorem json_loads_json_dumps (S : List String) :
    json_loads (json_dumps S) = some S := by
  cases S with
  | nil => rfl
  | cons s S =>
    have hdoc : (json_dumps (s :: S)).data
        = '[' :: ('"' :: (s.data.flatMap escapeChar ++
            ('"' :: (encodeTail S ++ [']'])))) := by
      rw [show (json_dumps (s :: S)).data
          = '[' :: joinSep ((s :: S).map encodeString) ++ [']'] from rfl,
        joinSep_map_cons, encodeString]
      simp [List.cons_append, List.append_assoc]
    unfold json_loads
    rw [hdoc]
    rw [skipWs_not '[' _ rfl]
    dsimp only
    rw [if_pos rfl, skipWs_not '"' _ rfl]
    dsimp only
    rw [if_neg (by decide : ¬ ('"' : Char) = ']'), if_pos rfl,
      parseStringBody_escape s.data _]
    dsimp only
    have hfuel : S.length ≤ ('[' :: ('"' :: (s.data.flatMap escapeChar ++
        ('"' :: (encodeTail S ++ ([']'] : List Char)))))).length := by
      have h1 := length_le_encodeTail S
      simp only [List.length_cons, List.length_append]
      omega
    rw [parseArrayRest_tail S _ hfuel []]
    dsimp only
    rw [if_pos (by rfl : (skipWs []).isEmpty = true)]
    rw [List.map_cons, map_mk_map_data]
/-! ## Helper lemmas: non-ASCII characters and the filesystem model -/

theorem escapeChar_nonascii (c : Char) (h : 0x80 ≤ c.toNat) :
    escapeChar c = [c] := by
  have h1 : ¬ c = '\\' := fun he => by subst he; exact absurd h (by decide)
  have h2 : ¬ c = '"' := fun he => by subst he; exact absurd h (by decide)
  have h3 : ¬ c = Char.ofNat 8 := fun he => by
    subst he; exact absurd h (by decide)
  have h4 : ¬ c = Char.ofNat 12 := fun he => by
    subst he; exact absurd h (by decide)
  have h5 : ¬ c = '\n' := fun he => by subst he; exact absurd h (by decide)
  have h6 : ¬ c = Char.ofNat 13 := fun he => by
    subst he; exact absurd h (by decide)
  have h7 : ¬ c = '\t' := fun he => by subst he; exact absurd h (by decide)
  have h8 : ¬ c.toNat < 0x20 := by omega
  rw [escapeChar, if_neg h1, if_neg h2, if_neg h3, if_neg h4, if_neg h5,
    if_neg h6, if_neg h7, if_neg h8]

theorem mem_joinSep (c : Char) (x : List Char) :
    ∀ L : List (List Char), x ∈ L → c ∈ x → c ∈ joinSep L := by
  intro L
  induction L with
  | nil => intro hx _; cases hx
  | cons y L ih =>
    intro hx hc
    cases L with
    | nil =>
      have hxy : x = y := List.mem_singleton.mp hx
      rw [joinSep, ← hxy]
      exact hc
    | cons z T =>
      rw [joinSep]
      rcases List.mem_cons.mp hx with hxy | hmem
      · exact List.mem_append_left _ (hxy ▸ hc)
      · exact List.mem_append_right _
          (List.mem_cons_of_mem _ (List.mem_cons_of_mem _ (ih hmem hc)))

theorem mem_char_dumps (S : List String) (s : String) (hs : s ∈ S) (c : Char)
    (hc : c ∈ s.data) (hesc : escapeChar c = [c]) :
    c ∈ (json_dumps S).data := by
  have h1 : c ∈ s.data.flatMap escapeChar :=
    List.mem_flatMap.mpr ⟨c, hc, by rw [hesc]; exact List.mem_singleton.mpr rfl⟩
  have h2 : c ∈ encodeString s := by
    rw [encodeString]
    exact List.mem_append_left _ (List.mem_cons_of_mem _ h1)
  have h3 : c ∈ joinSep (S.map encodeString) :=
    mem_joinSep c (encodeString s) _ (List.mem_map_of_mem encodeString hs) h2
  show c ∈ '[' :: joinSep (S.map encodeString) ++ [']']
  exact List.mem_append_left _ (List.mem_cons_of_mem _ h3)

theorem utf8Encode_contains (t : String) (c : Char) (h : c ∈ t.data) :
    ∃ u v, utf8Encode t = u ++ (utf8EncodeChar c.toNat ++ v) := by
  obtain ⟨l1, l2, he⟩ := List.append_of_mem h
  refine ⟨l1.flatMap (fun c => utf8EncodeChar c.toNat),
    l2.flatMap (fun c => utf8EncodeChar c.toNat), ?_⟩
  rw [utf8Encode, he, List.flatMap_append, List.flatMap_cons]

theorem runConvert_pos (dirs : String → Bool) (fs : FS) (lst : List String)
    (p : String) (h : dirs (dirname p) = true) :
    runConvert dirs fs lst p = writeFile fs p (utf8Encode (json_dumps lst)) := by
  unfold runConvert convert_list_to_json
  rw [if_pos h]

theorem writeFile_self (fs : FS) (p : String) (bs : List Nat) :
    writeFile fs p bs p = some bs := by
  unfold writeFile
  rw [if_pos rfl]
/-! ## Claims -/

/-- C1: for every ordered sequence `S` of strings, calling
`convert_list_to_json(S, destination)` (with an existing destination
directory), reading the file back, decoding it as UTF-8 and parsing it as
JSON yields exactly `S`, same elements in the same order — for every `S`,
including elements with quotes, backslashes or non-ASCII characters. -/
theorem convert_round_trip (dirs : String → Bool) (fs : FS)
    (S : List String) (p : String) (h : dirs (dirname p) = true) :
    ∃ bytes, runConvert dirs fs S p p = some bytes ∧
      Option.bind (utf8Decode bytes) json_loads = some S := by
  refine ⟨utf8Encode (json_dumps S), ?_, ?_⟩
  · rw [runConvert_pos dirs fs S p h, writeFile_self]
  · rw [utf8Decode_utf8Encode]
    exact json_loads_json_dumps S

theorem convert_round_trip_witness :
    (fun _ => true : String → Bool) (dirname "out.json") = true ∧
      ∃ bytes, runConvert (fun _ => true) (fun _ => none)
          ["Åland Islands", "a\"b\\c"] "out.json" "out.json" = some bytes ∧
        Option.bind (utf8Decode bytes) json_loads
          = some ["Åland Islands", "a\"b\\c"] :=
  ⟨rfl, convert_round_trip (fun _ => true) (fun _ => none)
    ["Åland Islands", "a\"b\\c"] "out.json" rfl⟩

/-- C2 (counterexample): the text written for `["A", "Å"]` has ten
characters, not nine as the claim states — its decoded length is `10`. -/
theorem two_element_length_counterexample :
    (runConvert (fun _ => true) (fun _ => none) ["A", "Å"] "out.json"
        "out.json").bind (fun bs => (utf8Decode bs).map String.length)
        = some 10 ∧
      ¬ (runConvert (fun _ => true) (fun _ => none) ["A", "Å"] "out.json"
        "out.json").bind (fun bs => (utf8Decode bs).map String.length)
        = some 9 := by
  constructor
  · decide
  · decide

/-- C2 (amended): for the two-element input `["A", "Å"]`,
`convert_list_to_json` writes a file whose bytes, decoded as UTF-8, equal
exactly the TEN-character text `["A", "Å"]` — the JSON array with a single
space after the comma, no surrounding whitespace, and no trailing
newline. -/
theorem two_element_exact_text (dirs : String → Bool) (fs : FS)
    (h : dirs (dirname "out.json") = true) :
    ∃ bytes, runConvert dirs fs ["A", "Å"] "out.json" "out.json"
        = some bytes ∧
      utf8Decode bytes = some "[\"A\", \"Å\"]" ∧
      ("[\"A\", \"Å\"]" : String).length = 10 := by
  refine ⟨utf8Encode (json_dumps ["A", "Å"]), ?_, ?_, by decide⟩
  · rw [runConvert_pos dirs fs ["A", "Å"] "out.json" h, writeFile_self]
  · rw [utf8Decode_utf8Encode]
    decide

theorem two_element_exact_text_witness :
    (fun _ => true : String → Bool) (dirname "out.json") = true ∧
      ∃ bytes, runConvert (fun _ => true) (fun _ => none) ["A", "Å"]
          "out.json" "out.json" = some bytes ∧
        utf8Decode bytes = some "[\"A\", \"Å\"]" ∧
        ("[\"A\", \"Å\"]" : String).length = 10 :=
  ⟨rfl, two_element_exact_text (fun _ => true) (fun _ => none) rfl⟩

/-- C3: every non-ASCII character of every input element is serialised
literally — `escapeChar` maps it to itself, never to a `\uXXXX` escape —
and the written bytes contain its raw UTF-8 encoding as a contiguous
segment. -/
theorem nonascii_raw_utf8 (dirs : String → Bool) (fs : FS)
    (S : List String) (p : String) (h : dirs (dirname p) = true)
    (s : String) (hs : s ∈ S) (c : Char) (hc : c ∈ s.data)
    (hna : 0x80 ≤ c.toNat) :
    escapeChar c = [c] ∧
      ∃ bytes u v, runConvert dirs fs S p p = some bytes ∧
        bytes = u ++ (utf8EncodeChar c.toNat ++ v) := by
  have hesc := escapeChar_nonascii c hna
  refine ⟨hesc, ?_⟩
  obtain ⟨u, v, huv⟩ :=
    utf8Encode_contains (json_dumps S) c (mem_char_dumps S s hs c hc hesc)
  exact ⟨utf8Encode (json_dumps S), u, v,
    by rw [runConvert_pos dirs fs S p h, writeFile_self], huv⟩

theorem nonascii_raw_utf8_witness :
    ((fun _ => true : String → Bool) (dirname "out.json") = true ∧
        "Åland Islands" ∈ ["Åland Islands", "Curaçao"] ∧
        'Å' ∈ ("Åland Islands" : String).data ∧ 0x80 ≤ ('Å' : Char).toNat) ∧
      (escapeChar 'Å' = ['Å'] ∧
        ∃ bytes u v, runConvert (fun _ => true) (fun _ => none)
            ["Åland Islands", "Curaçao"] "out.json" "out.json"
            = some bytes ∧
          bytes = u ++ (utf8EncodeChar ('Å' : Char).toNat ++ v)) :=
  ⟨⟨rfl, by decide, by decide, by decide⟩,
    nonascii_raw_utf8 (fun _ => true) (fun _ => none)
      ["Åland Islands", "Curaçao"] "out.json" rfl "Åland Islands"
      (by decide) 'Å' (by decide) (by decide)⟩

/-- C4: the empty input sequence produces a file whose contents are
exactly the two bytes `0x5B 0x5D`, the literal text `[]`. -/
theorem empty_list_writes_brackets (dirs : String → Bool) (fs : FS)
    (p : String) (h : dirs (dirname p) = true) :
    runConvert dirs fs [] p p = some [0x5B, 0x5D] ∧ json_dumps [] = "[]" := by
  refine ⟨?_, rfl⟩
  rw [runConvert_pos dirs fs [] p h, writeFile_self]
  rfl

theorem empty_list_writes_brackets_witness :
    (fun _ => true : String → Bool) (dirname "out.json") = true ∧
      (runConvert (fun _ => true) (fun _ => none) [] "out.json" "out.json"
          = some [0x5B, 0x5D] ∧ json_dumps [] = "[]") :=
  ⟨rfl, empty_list_writes_brackets (fun _ => true) (fun _ => none)
    "out.json" rfl⟩

/-- C5: the input `["Afghanistan", "Albania"]` written to `out.json`
produces a file whose contents, decoded as UTF-8, equal exactly the text
`["Afghanistan", "Albania"]`. -/
theorem afghanistan_albania_contents (dirs : String → Bool) (fs : FS)
    (h : dirs (dirname "out.json") = true) :
    ∃ bytes, runConvert dirs fs ["Afghanistan", "Albania"] "out.json"
        "out.json" = some bytes ∧
      utf8Decode bytes = some "[\"Afghanistan\", \"Albania\"]" := by
  refine ⟨utf8Encode (json_dumps ["Afghanistan", "Albania"]), ?_, ?_⟩
  · rw [runConvert_pos dirs fs ["Afghanistan", "Albania"] "out.json" h,
      writeFile_self]
  · rw [utf8Decode_utf8Encode]
    decide

theorem afghanistan_albania_contents_witness :
    (fun _ => true : String → Bool) (dirname "out.json") = true ∧
      ∃ bytes, runConvert (fun _ => true) (fun _ => none)
          ["Afghanistan", "Albania"] "out.json" "out.json" = some bytes ∧
        utf8Decode bytes = some "[\"Afghanistan\", \"Albania\"]" :=
  ⟨rfl, afghanistan_albania_contents (fun _ => true) (fun _ => none) rfl⟩

/-- C6: two successive calls on the same destination leave the file
holding exactly the encoding of the second input — `open(..., 'wb')`
truncates, so nothing of the first encoding remains, whatever the
relative lengths. -/
theorem second_call_overwrites (dirs : String → Bool) (fs : FS)
    (S1 S2 : List String) (p : String) (h : dirs (dirname p) = true) :
    runConvert dirs (runConvert dirs fs S1 p) S2 p p
      = some (utf8Encode (json_dumps S2)) := by
  rw [runConvert_pos dirs (runConvert dirs fs S1 p) S2 p h, writeFile_self]

theorem second_call_overwrites_witness :
    (fun _ => true : String → Bool) (dirname "out.json") = true ∧
      runConvert (fun _ => true)
          (runConvert (fun _ => true) (fun _ => none)
            ["a", "b", "c"] "out.json") ["d"] "out.json" "out.json"
        = some (utf8Encode (json_dumps ["d"])) :=
  ⟨rfl, second_call_overwrites (fun _ => true) (fun _ => none)
    ["a", "b", "c"] ["d"] "out.json" rfl⟩

/-- C7: when the destination directory does not exist, the call raises a
filesystem error and the filesystem is unchanged — in particular no file
is created at the destination. -/
theorem missing_directory_fails (dirs : String → Bool) (fs : FS)
    (S : List String) (p : String) (h : dirs (dirname p) = false) :
    convert_list_to_json dirs fs S p = Except.error () ∧
      runConvert dirs fs S p = fs := by
  unfold runConvert convert_list_to_json
  rw [h]
  exact ⟨rfl, rfl⟩

theorem missing_directory_fails_witness :
    (fun _ => false : String → Bool) (dirname "missing/out.json") = false ∧
      (convert_list_to_json (fun _ => false) (fun _ => none) ["x"]
          "missing/out.json" = Except.error () ∧
        runConvert (fun _ => false) (fun _ => none) ["x"]
          "missing/out.json" = (fun _ => none)) :=
  ⟨rfl, missing_directory_fails (fun _ => false) (fun _ => none) ["x"]
    "missing/out.json" rfl⟩

/-- C8: when the destination argument is not supplied, it defaults to
`countries.json` and the call behaves identically to an explicit call with
that path; a successful call yields only the updated filesystem (the
Python function returns `None`). -/
theorem default_destination (dirs : String → Bool) (fs : FS)
    (lst : List String) :
    convert_list_to_json_noDest dirs fs lst
        = convert_list_to_json dirs fs lst "countries.json" ∧
      (dirs (dirname "countries.json") = true →
        ∃ fs2, convert_list_to_json_noDest dirs fs lst = Except.ok fs2 ∧
          fs2 "countries.json" = some (utf8Encode (json_dumps lst))) := by
  refine ⟨rfl, fun h => ⟨writeFile fs "countries.json"
    (utf8Encode (json_dumps lst)), ?_, writeFile_self _ _ _⟩⟩
  unfold convert_list_to_json_noDest convert_list_to_json
  rw [if_pos h]

theorem default_destination_witness :
    ∃ fs2, convert_list_to_json_noDest (fun _ => true) (fun _ => none) ["x"]
        = Except.ok fs2 ∧
      fs2 "countries.json" = some (utf8Encode (json_dumps ["x"])) :=
  (default_destination (fun _ => true) (fun _ => none) ["x"]).2 rfl

/-- C9: a call to `convert_list_to_json` changes no path other than the
destination: at every other path the filesystem is exactly what it was
(this also covers the failing case, where nothing changes at all). -/
theorem frame_only_destination (dirs : String → Bool) (fs : FS)
    (S : List String) (p q : String) (hq : ¬ q = p) :
    runConvert dirs fs S p q = fs q := by
  unfold runConvert convert_list_to_json
  cases hd : dirs (dirname p) with
  | true => rw [if_pos rfl]; unfold writeFile; dsimp only; rw [if_neg hq]
  | false => rw [if_neg (by decide : ¬ (false = true))]

theorem frame_only_destination_witness :
    ¬ ("other.json" : String) = "out.json" ∧
      runConvert (fun _ => true) (fun _ => none) ["x"] "out.json"
        "other.json" = (fun _ => none : FS) "other.json" :=
  ⟨by decide, frame_only_destination (fun _ => true) (fun _ => none) ["x"]
    "out.json" "other.json" (by decide)⟩

/-- C10: the final call `convert_list_to_json(countries,
'exercises/countries.json')` sits outside the `__main__` guard while
`countries` is bound inside it; importing the module therefore always
raises `NameError` and writes nothing, and only a direct run (when the
directory `exercises` exists) writes the serialised `countries` list to
`exercises/countries.json`. -/
theorem module_guard_nameerror :
    (∀ dirs : String → Bool, ∀ fs : FS,
        runModule false dirs fs = PyExec.nameError fs) ∧
      (∀ dirs : String → Bool, ∀ fs : FS,
        dirs (dirname "exercises/countries.json") = true →
          ∃ fs2, runModule true dirs fs = PyExec.ok fs2 ∧
            fs2 "exercises/countries.json"
              = some (utf8Encode (json_dumps countries))) := by
  constructor
  · intro dirs fs
    rfl
  · intro dirs fs h
    refine ⟨writeFile fs "exercises/countries.json"
      (utf8Encode (json_dumps countries)), ?_, writeFile_self _ _ _⟩
    unfold runModule
    rw [if_pos rfl]
    dsimp only
    unfold convert_list_to_json
    rw [if_pos h]

theorem module_guard_nameerror_witness :
    runModule false (fun _ => true) (fun _ => none)
        = PyExec.nameError (fun _ => none) ∧
      ∃ fs2, runModule true (fun _ => true) (fun _ => none) = PyExec.ok fs2 ∧
        fs2 "exercises/countries.json"
          = some (utf8Encode (json_dumps countries)) :=
  ⟨module_guard_nameerror.1 (fun _ => true) (fun _ => none),
    module_guard_nameerror.2 (fun _ => true) (fun _ => none) rfl⟩
